import Mathlib

/- A shallow embedding, over the real numbers, of the McCabe-Thiele stage
construction in src/main.py.  Python float arithmetic is modelled by exact
real arithmetic and np.sqrt by Real.sqrt.  The source performs no error
handling around its divisions and square roots: where numpy silently
produces inf or NaN (division by zero, sqrt of a negative number), the
real-valued model yields Lean's junk values (x / 0 = 0, sqrt of a negative
= 0).  In both semantics the computation continues with an ordinary value
and no typed failure is ever raised; the error-handling statements are
judged against that behaviour.  The two unbounded while loops of the
source are modelled with an explicit fuel parameter: a result of none
means the loop has not exited within the given number of iterations. -/

noncomputable section

/-- Ideal binary equilibrium curve (main.py, eq_og):
ya = (relative_volatility * xa) / (1 + (relative_volatility - 1) * xa). -/
def eq_og (xa relative_volatility : ℝ) : ℝ :=
  (relative_volatility * xa) / (1 + (relative_volatility - 1) * xa)

/-- Equilibrium curve blended by the Murphree efficiency nm (main.py, eq):
the ideal ya, then ya := (ya - xa) * nm + xa. -/
def eq (xa relative_volatility nm : ℝ) : ℝ :=
  ((eq_og xa relative_volatility) - xa) * nm + xa

/-- Quadratic coefficient a of the inverse solve (main.py, eq2). -/
def eq2_a (relative_volatility nm : ℝ) : ℝ :=
  (relative_volatility * nm) - nm - relative_volatility + 1

/-- Quadratic coefficient b of the inverse solve (main.py, eq2). -/
def eq2_b (ya relative_volatility nm : ℝ) : ℝ :=
  (ya * relative_volatility) - ya + nm - 1 - (relative_volatility * nm)

/-- Quadratic coefficient c of the inverse solve (main.py, eq2). -/
def eq2_c (ya : ℝ) : ℝ := ya

/-- Inverse of eq (main.py, eq2): always the minus-sqrt branch of the
quadratic formula, xa = (-b - sqrt (b^2 - 4 a c)) / (2 a). -/
def eq2 (ya relative_volatility nm : ℝ) : ℝ :=
  (-(eq2_b ya relative_volatility nm) -
      Real.sqrt ((eq2_b ya relative_volatility nm) ^ 2 -
        4 * eq2_a relative_volatility nm * eq2_c ya)) /
    (2 * eq2_a relative_volatility nm)

/-- One staircase step: the 4-tuple (x1, x2, y1, y2) returned by the
stepping functions of main.py. -/
structure Step where
  x1 : ℝ
  x2 : ℝ
  y1 : ℝ
  y2 : ℝ

/-- One step over the rectifying operating line (main.py, stepping_ESOL):
x2 = eq2 y1, then y2 from the ESOL equation R * x2 / (R+1) + xd / (R+1). -/
def stepping_ESOL (x1 y1 relative_volatility R xd nm : ℝ) : Step :=
  ⟨x1, eq2 y1 relative_volatility nm, y1,
    ((R * eq2 y1 relative_volatility nm) / (R + 1)) + (xd / (R + 1))⟩

/-- One step over the stripping operating line (main.py, stepping_SSOL):
x2 = eq2 y1, then y2 = m * x2 + c on the SSOL through (xb, xb) and the
ESOL / q-line crossing, m = (xb - ESOL_q_y) / (xb - ESOL_q_x),
c = ESOL_q_y - m * ESOL_q_x. -/
def stepping_SSOL (x1 y1 relative_volatility ESOL_q_x ESOL_q_y xb nm : ℝ) : Step :=
  ⟨x1, eq2 y1 relative_volatility nm, y1,
    (((xb - ESOL_q_y) / (xb - ESOL_q_x)) * eq2 y1 relative_volatility nm) +
      (ESOL_q_y - (((xb - ESOL_q_y) / (xb - ESOL_q_x)) * ESOL_q_x))⟩

/-- The denominator of the equilibrium curve is positive on the domain. -/
theorem eq_denom_pos (xa al : ℝ) (hx0 : 0 ≤ xa) (hx1 : xa ≤ 1) (hal : 0 < al) :
    0 < 1 + (al - 1) * xa := by
  rcases eq_or_lt_of_le hx0 with h | h
  · rw [← h]; norm_num
  · nlinarith [mul_pos hal h]

/-- C9: the ideal equilibrium function eq_og computes
y = al * x / (1 + (al - 1) * x), and for every x in [0,1] and al > 0 the
value lies in [0,1]. -/
theorem eq_og_formula_and_range (xa al : ℝ) (hx0 : 0 ≤ xa) (hx1 : xa ≤ 1)
    (hal : 0 < al) :
    eq_og xa al = (al * xa) / (1 + (al - 1) * xa) ∧
      0 ≤ eq_og xa al ∧ eq_og xa al ≤ 1 := by
  have hD : 0 < 1 + (al - 1) * xa := eq_denom_pos xa al hx0 hx1 hal
  refine ⟨rfl, ?_, ?_⟩
  · exact div_nonneg (by nlinarith) hD.le
  · rw [eq_og, div_le_one hD]
    nlinarith

/-- Witness for C9 at xa = 1/2, al = 2. -/
theorem eq_og_formula_and_range_witness :
    eq_og (1/2) 2 = (2 * (1/2)) / (1 + (2 - 1) * (1/2)) ∧
      0 ≤ eq_og (1/2) 2 ∧ eq_og (1/2) 2 ≤ 1 :=
  eq_og_formula_and_range (1/2) 2 (by norm_num) (by norm_num) (by norm_num)

/-- C10: the quadratic coefficient a of eq2 factors as
(al - 1) * (nm - 1), so the divisor 2 * a of the root formula vanishes
exactly when al = 1 or nm = 1. -/
theorem eq2_a_factored (al nm : ℝ) :
    eq2_a al nm = (al - 1) * (nm - 1) ∧
      (2 * eq2_a al nm = 0 ↔ al = 1 ∨ nm = 1) := by
  have hfac : eq2_a al nm = (al - 1) * (nm - 1) := by
    unfold eq2_a; ring
  refine ⟨hfac, ?_⟩
  rw [hfac]
  constructor
  · intro h
    have h2 : (al - 1) * (nm - 1) = 0 := by linarith
    rcases mul_eq_zero.mp h2 with h3 | h3
    · exact Or.inl (by linarith)
    · exact Or.inr (by linarith)
  · rintro (h | h) <;> subst h <;> ring

/-- Evaluate a square root at an exact square. -/
theorem sqrt_val (d r : ℝ) (hr : 0 ≤ r) (h : d = r ^ 2) : Real.sqrt d = r := by
  rw [h, Real.sqrt_sq hr]

/-- Evaluate eq2 when the discriminant is an exact square. -/
theorem eq2_val (ya al nm r v : ℝ) (hr : 0 ≤ r)
    (hd : (eq2_b ya al nm) ^ 2 - 4 * eq2_a al nm * eq2_c ya = r ^ 2)
    (hv : (-(eq2_b ya al nm) - r) / (2 * eq2_a al nm) = v) :
    eq2 ya al nm = v := by
  unfold eq2
  rw [sqrt_val _ r hr hd, hv]

/-- C1 (amended): for every relative volatility al > 0 and efficiency
0 < nm < 1 the discriminant of eq2 is strictly positive at every input ya
(it equals a square plus 4 * al * nm * (1 - nm)), so the negative-
discriminant degeneracy can never arise in the permitted domain; the
remaining degeneracy a = 0 occurs exactly at nm = 1 or al = 1, where eq2
divides by zero without any check (see the counterexample). -/
theorem eq2_disc_pos (ya al nm : ℝ) (hal : 0 < al) (hnm0 : 0 < nm)
    (hnm1 : nm < 1) :
    0 < (eq2_b ya al nm) ^ 2 - 4 * eq2_a al nm * eq2_c ya := by
  unfold eq2_a eq2_b eq2_c
  nlinarith [sq_nonneg ((al - 1) * ya - (nm - 1) - al * nm),
    mul_pos (mul_pos hal hnm0) (sub_pos.mpr hnm1)]

/-- Witness for C1 (amended) at ya = 5, al = 2, nm = 1/2. -/
theorem eq2_disc_pos_witness :
    0 < (eq2_b 5 2 (1/2)) ^ 2 - 4 * eq2_a 2 (1/2) * eq2_c 5 :=
  eq2_disc_pos 5 2 (1/2) (by norm_num) (by norm_num) (by norm_num)

/-- At the degenerate efficiency nm = 1 the coefficient a vanishes and
eq2 at ya = 9/10 comes out as the junk value 0 (0.0/0.0, NaN in numpy). -/
theorem eq2_val_nine_tenths : eq2 (9/10) 2 1 = 0 := by
  refine eq2_val (9/10) 2 1 (11/10) 0 (by norm_num) ?_ ?_
  · unfold eq2_a eq2_b eq2_c; norm_num
  · unfold eq2_a eq2_b; norm_num

/-- Counterexample to C1 as stated: at al = 2, nm = 1 the quadratic
coefficient a is exactly 0, yet eq2 does not fail: it silently returns a
plain value (the model's untrapped division by zero gives 0; the numpy
source's gives NaN through 0.0/0.0) with no DegenerateCurve or any other
typed error in the source. -/
theorem eq2_degenerate_silent :
    eq2_a 2 1 = 0 ∧ eq2 (9/10) 2 1 = 0 :=
  ⟨by unfold eq2_a; norm_num, eq2_val_nine_tenths⟩

/-- C3 (amended): the round trip eq2 (eq x al nm) al nm = x holds exactly
(hence within any tolerance) for x in (0,1), al > 0 with al different from 1,
and nm in (0,1); at nm = 1 or al = 1 the quadratic coefficient vanishes and
the round trip breaks (see the counterexample). -/
theorem eq2_roundtrip (x al nm : ℝ) (hx0 : 0 < x) (hx1 : x < 1) (hal : 0 < al)
    (hal1 : al ≠ 1) (hnm0 : 0 < nm) (hnm1 : nm < 1) :
    eq2 (eq x al nm) al nm = x := by
  have hD : 0 < 1 + (al - 1) * x := eq_denom_pos x al hx0.le hx1.le hal
  have hDne : (1 + (al - 1) * x) ≠ 0 := ne_of_gt hD
  have hane : eq2_a al nm ≠ 0 := by
    have hfac : eq2_a al nm = (al - 1) * (nm - 1) := by unfold eq2_a; ring
    rw [hfac]
    exact mul_ne_zero (sub_ne_zero.mpr hal1) (sub_ne_zero.mpr (ne_of_lt hnm1))
  have hroot : eq2_a al nm * x ^ 2 + eq2_b (eq x al nm) al nm * x +
      eq2_c (eq x al nm) = 0 := by
    unfold eq2_a eq2_b eq2_c eq eq_og
    field_simp
    ring
  have hT : (1 + (al - 1) * x) *
      (2 * eq2_a al nm * x + eq2_b (eq x al nm) al nm) =
      (al - 1) * ((nm - 1) * x * (1 + (al - 1) * x) + nm * (x - 1)) -
        (1 + (al - 1) * x) := by
    unfold eq2_a eq2_b eq eq_og
    field_simp
    ring
  have hTneg : (al - 1) * ((nm - 1) * x * (1 + (al - 1) * x) + nm * (x - 1)) -
      (1 + (al - 1) * x) < 0 := by
    rcases le_or_lt 1 al with h1 | h1
    · have hbr : (nm - 1) * x * (1 + (al - 1) * x) + nm * (x - 1) < 0 := by
        nlinarith [mul_pos (mul_pos (sub_pos.mpr hnm1) hx0) hD,
          mul_pos hnm0 (sub_pos.mpr hx1)]
      nlinarith [mul_nonneg (sub_nonneg.mpr h1) (neg_nonneg.mpr hbr.le)]
    · have key : (al - 1) * ((nm - 1) * x * (1 + (al - 1) * x) + nm * (x - 1)) -
          (1 + (al - 1) * x) =
          (1 - al) * nm * (1 - x) -
            ((1 - al) * (1 - x) * (1 - (1 - al) * (1 - nm) * x)) -
            (al * (1 - (1 - al) * (1 - nm) * x)) := by ring
      have hx' : 0 < 1 - (1 - al) * x := by nlinarith [mul_pos hal hx0]
      have hG : 0 < 1 - (1 - al) * (1 - nm) * x := by
        nlinarith [mul_pos (mul_pos (sub_pos.mpr h1) (sub_pos.mpr hnm1)) hx0,
          mul_pos hal (sub_pos.mpr hnm1),
          mul_pos (mul_pos hal (sub_pos.mpr hnm1)) hx0]
      have f2 : (1 - al) * (1 - x) * (1 - (1 - al) * (1 - nm) * x) ≥
          (1 - al) * (1 - x) * nm := by
        nlinarith [mul_nonneg (mul_nonneg (sub_pos.mpr h1).le (sub_pos.mpr hx1).le)
          (mul_nonneg (sub_pos.mpr hnm1).le hx'.le)]
      have f3 : 0 < al * (1 - (1 - al) * (1 - nm) * x) := mul_pos hal hG
      rw [key]
      nlinarith [f2, f3]
  have hsign : 2 * eq2_a al nm * x + eq2_b (eq x al nm) al nm < 0 := by
    by_contra h
    push_neg at h
    nlinarith [mul_nonneg hD.le h, hT, hTneg]
  have hdisc : (eq2_b (eq x al nm) al nm) ^ 2 -
      4 * eq2_a al nm * eq2_c (eq x al nm) =
      (-(2 * eq2_a al nm * x + eq2_b (eq x al nm) al nm)) ^ 2 := by
    linear_combination (-4 * eq2_a al nm) * hroot
  have h2a : 2 * eq2_a al nm ≠ 0 := mul_ne_zero two_ne_zero hane
  unfold eq2
  rw [hdisc, Real.sqrt_sq (by linarith)]
  rw [div_eq_iff h2a]
  ring

/-- Witness for C3 (amended) at x = 1/2, al = 2, nm = 1/2. -/
theorem eq2_roundtrip_witness :
    eq2 (eq (1/2) 2 (1/2)) 2 (1/2) = 1/2 :=
  eq2_roundtrip (1/2) 2 (1/2) (by norm_num) (by norm_num) (by norm_num)
    (by norm_num) (by norm_num) (by norm_num)

/-- Counterexample to C3 as stated: the claim admits nm = 1 (and al = 1,
allowed by al > 0), but there the round trip fails by far more than the
1e-9 tolerance: the degenerate division by zero in eq2 yields the junk
value 0 in the model (NaN in the numpy source), not x. -/
theorem eq2_roundtrip_fails_at_degenerate :
    ¬(|eq2 (eq (9/10) 2 1) 2 1 - 9/10| ≤ 1/1000000000) ∧
      ¬(|eq2 (eq (1/2) 1 (1/2)) 1 (1/2) - 1/2| ≤ 1/1000000000) := by
  have h1 : eq (9/10) 2 1 = 18/19 := by unfold eq eq_og; norm_num
  have h2 : eq2 (18/19) 2 1 = 0 := by
    refine eq2_val (18/19) 2 1 (20/19) 0 (by norm_num) ?_ ?_
    · unfold eq2_a eq2_b eq2_c; norm_num
    · unfold eq2_a eq2_b; norm_num
  have h3 : eq (1/2) 1 (1/2) = 1/2 := by unfold eq eq_og; norm_num
  have h4 : eq2 (1/2) 1 (1/2) = 0 := by
    refine eq2_val (1/2) 1 (1/2) 1 0 (by norm_num) ?_ ?_
    · unfold eq2_a eq2_b eq2_c; norm_num
    · unfold eq2_a eq2_b; norm_num
  rw [h1, h2, h3, h4]
  constructor
  · rw [not_le, zero_sub, abs_neg, abs_of_nonneg (by norm_num : (0:ℝ) ≤ 9/10)]
    norm_num
  · rw [not_le, zero_sub, abs_neg, abs_of_nonneg (by norm_num : (0:ℝ) ≤ 1/2)]
    norm_num

/-- The epsilon perturbation of the feed quality q against division by zero
(main.py lines 170-173). -/
def adjust_q (q : ℝ) : ℝ :=
  let q1 := if q = 1 then q - 0.00000001 else q
  if q1 = 0 then q1 + 0.00000001 else q1

/-- Quadratic coefficient a of the q-line / equilibrium-curve solve
(main.py line 187). -/
def mc_qa (al q nm : ℝ) : ℝ :=
  ((al * q) / (q - 1)) - al + (al * nm) - (q / (q - 1)) + 1 - nm

/-- Quadratic coefficient b of the q-line / equilibrium-curve solve
(main.py line 188). -/
def mc_qb (al q nm xf : ℝ) : ℝ :=
  (q / (q - 1)) - 1 + nm + ((al * xf) / (1 - q)) - (xf / (1 - q)) - (al * nm)

/-- Quadratic coefficient c of the q-line / equilibrium-curve solve
(main.py line 189). -/
def mc_qc (q xf : ℝ) : ℝ := xf / (1 - q)

/-- x-coordinate where the q-line meets the equilibrium curve (main.py
lines 191-194): the +sqrt branch when q > 1, the -sqrt branch otherwise. -/
def mc_q_eqX (al q nm xf : ℝ) : ℝ :=
  if q > 1 then
    (-(mc_qb al q nm xf) + Real.sqrt ((mc_qb al q nm xf) ^ 2 -
      4 * mc_qa al q nm * mc_qc q xf)) / (2 * mc_qa al q nm)
  else
    (-(mc_qb al q nm xf) - Real.sqrt ((mc_qb al q nm xf) ^ 2 -
      4 * mc_qa al q nm * mc_qc q xf)) / (2 * mc_qa al q nm)

/-- y-coordinate of that intersection (main.py line 196). -/
def mc_q_eqy (al q nm xf : ℝ) : ℝ := eq (mc_q_eqX al q nm xf) al nm

/-- ESOL y-intercept giving the minimum reflux (main.py line 199). -/
def mc_theta_min (al q nm xf xd : ℝ) : ℝ :=
  xd * (1 - ((xd - mc_q_eqy al q nm xf) / (xd - mc_q_eqX al q nm xf)))

/-- Minimum reflux ratio (main.py line 200). -/
def mc_R_min (al q nm xf xd : ℝ) : ℝ := (xd / mc_theta_min al q nm xf xd) - 1

/-- Actual reflux ratio (main.py line 201). -/
def mc_R (al q nm xf xd rf : ℝ) : ℝ := rf * mc_R_min al q nm xf xd

/-- Actual ESOL y-intercept (main.py line 202). -/
def mc_theta (al q nm xf xd rf : ℝ) : ℝ := xd / (mc_R al q nm xf xd rf + 1)

/-- x-coordinate where the actual ESOL meets the q-line (main.py line 204). -/
def mc_ESOL_q_x (al q nm xf xd rf : ℝ) : ℝ :=
  ((mc_theta al q nm xf xd rf - (xf / (1 - q))) /
    ((q / (q - 1)) - ((xd - mc_theta al q nm xf xd rf) / xd)))

/-- y-coordinate of that crossing (main.py line 206). -/
def mc_ESOL_q_y (al q nm xf xd rf : ℝ) : ℝ :=
  (mc_ESOL_q_x al q nm xf xd rf * ((xd - mc_theta al q nm xf xd rf) / xd)) +
    mc_theta al q nm xf xd rf

/-- Evaluate mc_q_eqX on the q > 1 branch at an exact-square discriminant. -/
theorem mc_q_eqX_val_pos (al q nm xf r v : ℝ) (hq : q > 1) (hr : 0 ≤ r)
    (hd : (mc_qb al q nm xf) ^ 2 - 4 * mc_qa al q nm * mc_qc q xf = r ^ 2)
    (hv : (-(mc_qb al q nm xf) + r) / (2 * mc_qa al q nm) = v) :
    mc_q_eqX al q nm xf = v := by
  unfold mc_q_eqX
  rw [if_pos hq, sqrt_val _ r hr hd, hv]

/-- Evaluate mc_q_eqX on the q ≤ 1 branch at an exact-square discriminant. -/
theorem mc_q_eqX_val_neg (al q nm xf r v : ℝ) (hq : ¬(q > 1)) (hr : 0 ≤ r)
    (hd : (mc_qb al q nm xf) ^ 2 - 4 * mc_qa al q nm * mc_qc q xf = r ^ 2)
    (hv : (-(mc_qb al q nm xf) - r) / (2 * mc_qa al q nm) = v) :
    mc_q_eqX al q nm xf = v := by
  unfold mc_q_eqX
  rw [if_neg hq, sqrt_val _ r hr hd, hv]

/-- C8 (amended): whichever sqrt branch is selected (+sqrt for q > 1,
-sqrt otherwise, as coded), when the quadratic is nondegenerate (a not 0,
discriminant nonnegative), q is not 1 and the curve denominator does not
vanish at the root, the returned point lies on the efficiency-adjusted
equilibrium curve (definitionally) and on the q-line through (xf, xf) of
slope q / (q - 1).  The claim's gloss that the +sqrt root is the larger one
holds only when a > 0; the counterexample shows a q > 1 input where the
+sqrt root is the smaller root. -/
theorem qline_intersection_on_both (al q nm xf : ℝ) (hq1 : q ≠ 1)
    (ha : mc_qa al q nm ≠ 0)
    (hd : 0 ≤ (mc_qb al q nm xf) ^ 2 - 4 * mc_qa al q nm * mc_qc q xf)
    (hD : 1 + (al - 1) * mc_q_eqX al q nm xf ≠ 0) :
    mc_q_eqy al q nm xf = eq (mc_q_eqX al q nm xf) al nm ∧
      mc_q_eqy al q nm xf =
        (q / (q - 1)) * mc_q_eqX al q nm xf + xf / (1 - q) := by
  have h2a : 2 * mc_qa al q nm ≠ 0 := mul_ne_zero two_ne_zero ha
  have h4a : 4 * mc_qa al q nm ≠ 0 := by
    intro h
    exact ha (by linarith)
  have hs : (Real.sqrt ((mc_qb al q nm xf) ^ 2 -
      4 * mc_qa al q nm * mc_qc q xf)) ^ 2 =
      (mc_qb al q nm xf) ^ 2 - 4 * mc_qa al q nm * mc_qc q xf :=
    Real.sq_sqrt hd
  have hsq : (2 * mc_qa al q nm * mc_q_eqX al q nm xf + mc_qb al q nm xf) ^ 2 =
      (mc_qb al q nm xf) ^ 2 - 4 * mc_qa al q nm * mc_qc q xf := by
    rw [← hs]
    unfold mc_q_eqX
    split_ifs
    · field_simp
    · field_simp
      linear_combination hs
  have hroot4 : 4 * mc_qa al q nm *
      (mc_qa al q nm * (mc_q_eqX al q nm xf) ^ 2 +
        mc_qb al q nm xf * mc_q_eqX al q nm xf + mc_qc q xf) = 0 := by
    linear_combination hsq
  have hroot : mc_qa al q nm * (mc_q_eqX al q nm xf) ^ 2 +
      mc_qb al q nm xf * mc_q_eqX al q nm xf + mc_qc q xf = 0 :=
    (mul_eq_zero.mp hroot4).resolve_left h4a
  have hq1' : q - 1 ≠ 0 := sub_ne_zero.mpr hq1
  have h1q : 1 - q ≠ 0 := sub_ne_zero.mpr (Ne.symm hq1)
  have hcurve : (1 + (al - 1) * mc_q_eqX al q nm xf) *
      (eq (mc_q_eqX al q nm xf) al nm -
        ((q / (q - 1)) * mc_q_eqX al q nm xf + xf / (1 - q))) =
      -(mc_qa al q nm * (mc_q_eqX al q nm xf) ^ 2 +
        mc_qb al q nm xf * mc_q_eqX al q nm xf + mc_qc q xf) := by
    unfold eq eq_og mc_qa mc_qb mc_qc
    field_simp
    ring
  rw [hroot, neg_zero] at hcurve
  rcases mul_eq_zero.mp hcurve with h | h
  · exact absurd h hD
  · exact ⟨rfl, by unfold mc_q_eqy; linarith [sub_eq_zero.mp h]⟩

/-- Witness for C8 (amended) at al = 1/2, q = 2, nm = 1/2, xf = 7/12,
where the intersection is the exact rational point (1/2, 5/12). -/
theorem qline_intersection_on_both_witness :
    mc_q_eqy (1/2) 2 (1/2) (7/12) = eq (mc_q_eqX (1/2) 2 (1/2) (7/12)) (1/2) (1/2) ∧
      mc_q_eqy (1/2) 2 (1/2) (7/12) =
        (2 / (2 - 1)) * mc_q_eqX (1/2) 2 (1/2) (7/12) + (7/12) / (1 - 2) :=
  qline_intersection_on_both (1/2) 2 (1/2) (7/12) (by norm_num)
    (by unfold mc_qa; norm_num)
    (by unfold mc_qa mc_qb mc_qc; norm_num)
    (by
      rw [mc_q_eqX_val_pos (1/2) 2 (1/2) (7/12) (19/24) (1/2) (by norm_num)
        (by norm_num)
        (by unfold mc_qa mc_qb mc_qc; norm_num)
        (by unfold mc_qa mc_qb; norm_num)]
      norm_num)

/-- Counterexample to C8 as stated: at al = 1/2, nm = 1/2, q = 2 > 1,
xf = 7/12, the +sqrt branch returns the root 1/2, but 14/9 is also a root
of the same quadratic and is strictly larger: for q > 1 the code does not
choose the larger root (the leading coefficient is negative here). -/
theorem qline_root_choice_not_larger :
    mc_q_eqX (1/2) 2 (1/2) (7/12) = 1/2 ∧
      mc_qa (1/2) 2 (1/2) * (14/9) ^ 2 +
        mc_qb (1/2) 2 (1/2) (7/12) * (14/9) + mc_qc 2 (7/12) = 0 ∧
      (1/2 : ℝ) < 14/9 := by
  refine ⟨?_, ?_, by norm_num⟩
  · exact mc_q_eqX_val_pos (1/2) 2 (1/2) (7/12) (19/24) (1/2) (by norm_num)
      (by norm_num)
      (by unfold mc_qa mc_qb mc_qc; norm_num)
      (by unfold mc_qa mc_qb; norm_num)
  · unfold mc_qa mc_qb mc_qc
    norm_num

/-- The rational intersection point of the eta = 1 configuration
al = 2, q = 3/5, xf = 2/5 (discriminant 49/4). -/
theorem mc_q_eqX_val_A : mc_q_eqX 2 (3/5) 1 (2/5) = 1/3 :=
  mc_q_eqX_val_neg 2 (3/5) 1 (2/5) (7/2) (1/3) (by norm_num) (by norm_num)
    (by unfold mc_qa mc_qb mc_qc; norm_num)
    (by unfold mc_qa mc_qb; norm_num)

/-- The matching y-coordinate of that intersection. -/
theorem mc_q_eqy_val_A : mc_q_eqy 2 (3/5) 1 (2/5) = 1/2 := by
  unfold mc_q_eqy
  rw [mc_q_eqX_val_A]
  unfold eq eq_og
  norm_num

/-- C6 (amended): theta_min and R_min are computed by exactly the claimed
formulas; the division defining R_min satisfies (R_min + 1) * theta_min = xd
whenever theta_min is not 0, and theta_min = xd * (q_eqy - q_eqX) /
(xd - q_eqX), which vanishes only when xd = 0 or the intersection lies on
the diagonal — not at xd = 1 (see the counterexample); no DivideByZero
error exists in the source, a zero theta_min flows through the untrapped
float division. -/
theorem minimum_reflux_formulas (al q nm xf xd : ℝ)
    (h : xd - mc_q_eqX al q nm xf ≠ 0) :
    mc_theta_min al q nm xf xd =
        xd * (mc_q_eqy al q nm xf - mc_q_eqX al q nm xf) /
          (xd - mc_q_eqX al q nm xf) ∧
      (mc_theta_min al q nm xf xd ≠ 0 →
        (mc_R_min al q nm xf xd + 1) * mc_theta_min al q nm xf xd = xd) := by
  constructor
  · unfold mc_theta_min
    field_simp
  · intro h0
    unfold mc_R_min
    have hrw : xd / mc_theta_min al q nm xf xd - 1 + 1 =
        xd / mc_theta_min al q nm xf xd := by ring
    rw [hrw, div_mul_cancel₀ _ h0]

/-- Witness for C6 (amended) at al = 2, q = 3/5, nm = 1, xf = 2/5, xd = 1. -/
theorem minimum_reflux_formulas_witness :
    mc_theta_min 2 (3/5) 1 (2/5) 1 =
        1 * (mc_q_eqy 2 (3/5) 1 (2/5) - mc_q_eqX 2 (3/5) 1 (2/5)) /
          (1 - mc_q_eqX 2 (3/5) 1 (2/5)) ∧
      (mc_theta_min 2 (3/5) 1 (2/5) 1 ≠ 0 →
        (mc_R_min 2 (3/5) 1 (2/5) 1 + 1) * mc_theta_min 2 (3/5) 1 (2/5) 1 = 1) :=
  minimum_reflux_formulas 2 (3/5) 1 (2/5) 1
    (by rw [mc_q_eqX_val_A]; norm_num)

/-- Counterexample to C6 as stated: at the boundary input xd = 1.0 (with
al = 2, nm = 1, q = 3/5, xf = 2/5) theta_min evaluates to 1/4, nowhere near
0, and R_min to the plain finite value 3 — no DivideByZero condition arises
or is raised. -/
theorem theta_min_nonzero_at_xd_one :
    mc_theta_min 2 (3/5) 1 (2/5) 1 = 1/4 ∧ mc_R_min 2 (3/5) 1 (2/5) 1 = 3 := by
  have h1 : mc_theta_min 2 (3/5) 1 (2/5) 1 = 1/4 := by
    unfold mc_theta_min
    rw [mc_q_eqX_val_A, mc_q_eqy_val_A]
    norm_num
  refine ⟨h1, ?_⟩
  unfold mc_R_min
  rw [h1]
  norm_num

/-- The rectifying while loop (main.py lines 230-235) with an explicit
fuel: while x2 > ESOL_q_x, step from (x2, y2) and increment the stage
count; none when the loop has not exited within fuel iterations. -/
def rectLoop (al R xd nm qx : ℝ) : ℕ → Step → ℕ → Option (Step × ℕ)
  | 0, s, count => if s.x2 > qx then none else some (s, count)
  | fuel + 1, s, count =>
      if s.x2 > qx then
        rectLoop al R xd nm qx fuel (stepping_ESOL s.x2 s.y2 al R xd nm)
          (count + 1)
      else some (s, count)

/-- The stripping while loop (main.py lines 243-249) with an explicit
fuel: while x2 > xb, step from (x2, y2) and increment the stage count. -/
def ssolLoop (al qx qy xb nm : ℝ) : ℕ → Step → ℕ → Option (Step × ℕ)
  | 0, s, count => if s.x2 > xb then none else some (s, count)
  | fuel + 1, s, count =>
      if s.x2 > xb then
        ssolLoop al qx qy xb nm fuel (stepping_SSOL s.x2 s.y2 al qx qy xb nm)
          (count + 1)
      else some (s, count)

/-- The rectifying phase (main.py lines 225-237): the initial step from
(xd, xd) with the stage count at 1, then the rectifying loop; on exit the
count is the feed stage. -/
def rectPhase (al R xd nm qx : ℝ) (fuel : ℕ) : Option (Step × ℕ) :=
  rectLoop al R xd nm qx fuel (stepping_ESOL xd xd al R xd nm) 1

/-- The unconditional first stripping step (main.py line 239): the source
passes the last rectifying step's starting point (x1, y1) — not its
endpoint (x2, y2) — to stepping_SSOL. -/
def mc_first_SSOL (s : Step) (al qx qy xb nm : ℝ) : Step :=
  stepping_SSOL s.x1 s.y1 al qx qy xb nm

/-- The stripping phase (main.py lines 239-249): the unconditional first
stripping step with its stage-count increment, then the stripping loop. -/
def ssolPhase (al qx qy xb nm : ℝ) (fuel : ℕ) (s : Step) (count : ℕ) :
    Option (Step × ℕ) :=
  ssolLoop al qx qy xb nm fuel (mc_first_SSOL s al qx qy xb nm) (count + 1)

/-- The outputs the route reports (main.py lines 251-252 and 263-267). -/
structure MTResult where
  stages : ℕ
  feed_stage : ℕ
  R_min : ℝ
  R : ℝ
  xb_actual : ℝ

/-- The McCabe-Thiele construction (main.py, McCabeThiele) after form
parsing; relative_volatility al stands for PaVap / PbVap.  none means a
while loop of the source has not exited within fuel iterations (the
source itself, which has no iteration cap, would still be looping). -/
def mcCabeThiele (fuel : ℕ) (al rf xf xd xb q0 nm : ℝ) : Option MTResult :=
  (rectPhase al (mc_R al (adjust_q q0) nm xf xd rf) xd nm
      (mc_ESOL_q_x al (adjust_q q0) nm xf xd rf) fuel).bind fun sc =>
    (ssolPhase al (mc_ESOL_q_x al (adjust_q q0) nm xf xd rf)
        (mc_ESOL_q_y al (adjust_q q0) nm xf xd rf) xb nm fuel sc.1 sc.2).map
      fun sc2 =>
        ⟨sc2.2 - 1, sc.2, mc_R_min al (adjust_q q0) nm xf xd,
          mc_R al (adjust_q q0) nm xf xd rf, sc2.1.x2⟩

/-- Termination of the construction at a given input: some fuel suffices
for both while loops to exit. -/
def mcTerminates (al rf xf xd xb q0 nm : ℝ) : Prop :=
  ∃ fuel, (mcCabeThiele fuel al rf xf xd xb q0 nm).isSome

/-- The k-th iterate of the rectifying step map. -/
def rectIter (al R xd nm : ℝ) : ℕ → Step → Step
  | 0, s => s
  | k + 1, s => rectIter al R xd nm k (stepping_ESOL s.x2 s.y2 al R xd nm)

/-- The k-th iterate of the stripping step map. -/
def ssolIter (al qx qy xb nm : ℝ) : ℕ → Step → Step
  | 0, s => s
  | k + 1, s => ssolIter al qx qy xb nm k (stepping_SSOL s.x2 s.y2 al qx qy xb nm)

/-- A loop exits at once when its condition already fails. -/
theorem rectLoop_exit (al R xd nm qx : ℝ) (fuel : ℕ) (s : Step) (c : ℕ)
    (h : ¬(s.x2 > qx)) : rectLoop al R xd nm qx fuel s c = some (s, c) := by
  cases fuel <;> unfold rectLoop <;> rw [if_neg h]

/-- A loop exits at once when its condition already fails. -/
theorem ssolLoop_exit (al qx qy xb nm : ℝ) (fuel : ℕ) (s : Step) (c : ℕ)
    (h : ¬(s.x2 > xb)) : ssolLoop al qx qy xb nm fuel s c = some (s, c) := by
  cases fuel <;> unfold ssolLoop <;> rw [if_neg h]

/-- The rectifying loop returns within the given fuel exactly when some
iterate within the fuel satisfies the exit condition. -/
theorem rectLoop_isSome_iff (al R xd nm qx : ℝ) :
    ∀ (fuel : ℕ) (s : Step) (c : ℕ),
      (rectLoop al R xd nm qx fuel s c).isSome ↔
        ∃ k, k ≤ fuel ∧ (rectIter al R xd nm k s).x2 ≤ qx := by
  intro fuel
  induction fuel with
  | zero =>
    intro s c
    unfold rectLoop
    split_ifs with h
    · simp only [Option.isSome_none, Bool.false_eq_true, false_iff]
      rintro ⟨k, hk, hx⟩
      obtain rfl : k = 0 := Nat.le_zero.mp hk
      rw [rectIter] at hx
      exact absurd hx (not_le.mpr h)
    · simp only [Option.isSome_some, true_iff]
      exact ⟨0, le_refl 0, by rw [rectIter]; exact not_lt.mp h⟩
  | succ n ih =>
    intro s c
    unfold rectLoop
    split_ifs with h
    · rw [ih]
      constructor
      · rintro ⟨k, hk, hx⟩
        exact ⟨k + 1, Nat.succ_le_succ hk, by rw [rectIter]; exact hx⟩
      · rintro ⟨k, hk, hx⟩
        cases k with
        | zero =>
          rw [rectIter] at hx
          exact absurd hx (not_le.mpr h)
        | succ j =>
          rw [rectIter] at hx
          exact ⟨j, Nat.succ_le_succ_iff.mp hk, hx⟩
    · simp only [Option.isSome_some, true_iff]
      exact ⟨0, Nat.zero_le _, by rw [rectIter]; exact not_lt.mp h⟩

/-- The stripping loop returns within the given fuel exactly when some
iterate within the fuel satisfies the exit condition. -/
theorem ssolLoop_isSome_iff (al qx qy xb nm : ℝ) :
    ∀ (fuel : ℕ) (s : Step) (c : ℕ),
      (ssolLoop al qx qy xb nm fuel s c).isSome ↔
        ∃ k, k ≤ fuel ∧ (ssolIter al qx qy xb nm k s).x2 ≤ xb := by
  intro fuel
  induction fuel with
  | zero =>
    intro s c
    unfold ssolLoop
    split_ifs with h
    · simp only [Option.isSome_none, Bool.false_eq_true, false_iff]
      rintro ⟨k, hk, hx⟩
      obtain rfl : k = 0 := Nat.le_zero.mp hk
      rw [ssolIter] at hx
      exact absurd hx (not_le.mpr h)
    · simp only [Option.isSome_some, true_iff]
      exact ⟨0, le_refl 0, by rw [ssolIter]; exact not_lt.mp h⟩
  | succ n ih =>
    intro s c
    unfold ssolLoop
    split_ifs with h
    · rw [ih]
      constructor
      · rintro ⟨k, hk, hx⟩
        exact ⟨k + 1, Nat.succ_le_succ hk, by rw [ssolIter]; exact hx⟩
      · rintro ⟨k, hk, hx⟩
        cases k with
        | zero =>
          rw [ssolIter] at hx
          exact absurd hx (not_le.mpr h)
        | succ j =>
          rw [ssolIter] at hx
          exact ⟨j, Nat.succ_le_succ_iff.mp hk, hx⟩
    · simp only [Option.isSome_some, true_iff]
      exact ⟨0, Nat.zero_le _, by rw [ssolIter]; exact not_lt.mp h⟩

/-- C2 (amended): each stepping loop, run with a given amount of fuel,
exits exactly when some iterate of its step map within that fuel meets the
exit condition (x ≤ ESOL_q_x for the rectifying loop, x ≤ xb for the
stripping loop); the source enforces no iteration cap and has no
NonConvergent failure, and for pinch inputs it never exits (see the
counterexample). -/
theorem loops_exit_iff_condition_reached (al R xd nm qx qy xb : ℝ)
    (fuel : ℕ) (s : Step) (c : ℕ) :
    ((rectLoop al R xd nm qx fuel s c).isSome ↔
        ∃ k, k ≤ fuel ∧ (rectIter al R xd nm k s).x2 ≤ qx) ∧
      ((ssolLoop al qx qy xb nm fuel s c).isSome ↔
        ∃ k, k ≤ fuel ∧ (ssolIter al qx qy xb nm k s).x2 ≤ xb) :=
  ⟨rectLoop_isSome_iff al R xd nm qx fuel s c,
    ssolLoop_isSome_iff al qx qy xb nm fuel s c⟩

/-- adjust_q leaves a feed quality away from 0 and 1 unchanged. -/
theorem adjust_q_id (q : ℝ) (h1 : q ≠ 1) (h0 : q ≠ 0) : adjust_q q = q := by
  unfold adjust_q
  rw [if_neg h1, if_neg h0]

/-- At the pinch configuration al = 2, nm = 1/2 the inverse equilibrium
fixes the top corner: eq2 1 = 1. -/
theorem eq2_one_val : eq2 1 2 (1/2) = 1 := by
  refine eq2_val 1 2 (1/2) (3/2) 1 (by norm_num) ?_ ?_
  · unfold eq2_a eq2_b eq2_c; norm_num
  · unfold eq2_a eq2_b; norm_num

/-- q-line / equilibrium intersection of the pinch configuration
al = 2, q = 1/5, nm = 1/2, xf = 2/5 (discriminant 49/16). -/
theorem mc_q_eqX_val_B : mc_q_eqX 2 (1/5) (1/2) (2/5) = 1/3 :=
  mc_q_eqX_val_neg 2 (1/5) (1/2) (2/5) (7/4) (1/3) (by norm_num) (by norm_num)
    (by unfold mc_qa mc_qb mc_qc; norm_num)
    (by unfold mc_qa mc_qb; norm_num)

/-- The matching y-coordinate of that intersection. -/
theorem mc_q_eqy_val_B : mc_q_eqy 2 (1/5) (1/2) (2/5) = 5/12 := by
  unfold mc_q_eqy
  rw [mc_q_eqX_val_B]
  unfold eq eq_og
  norm_num

/-- Actual reflux ratio of the pinch configuration with xd = 1, rf = 2. -/
theorem mc_R_val_B : mc_R 2 (1/5) (1/2) (2/5) 1 2 = 14 := by
  unfold mc_R mc_R_min mc_theta_min
  rw [mc_q_eqX_val_B, mc_q_eqy_val_B]
  norm_num

/-- ESOL / q-line crossing of the pinch configuration. -/
theorem mc_ESOL_q_x_val_B : mc_ESOL_q_x 2 (1/5) (1/2) (2/5) 1 2 = 26/71 := by
  unfold mc_ESOL_q_x mc_theta
  rw [mc_R_val_B]
  norm_num

/-- With xd = 1 the rectifying step map fixes the state (1, 1, 1, 1). -/
theorem stepping_ESOL_fix : stepping_ESOL 1 1 2 14 1 (1/2) = ⟨1, 1, 1, 1⟩ := by
  unfold stepping_ESOL
  rw [eq2_one_val]
  simp only [Step.mk.injEq]
  norm_num

/-- The rectifying loop never exits from the pinned state (1, 1, 1, 1). -/
theorem rectLoop_pinch_none :
    ∀ (fuel c : ℕ), rectLoop 2 14 1 (1/2) (26/71) fuel ⟨1, 1, 1, 1⟩ c = none := by
  have hgt : (⟨1, 1, 1, 1⟩ : Step).x2 > 26/71 := by
    show (1:ℝ) > 26/71
    norm_num
  intro fuel
  induction fuel with
  | zero =>
    intro c
    unfold rectLoop
    rw [if_pos hgt]
  | succ n ih =>
    intro c
    unfold rectLoop
    rw [if_pos hgt]
    show rectLoop 2 14 1 (1/2) (26/71) n (stepping_ESOL 1 1 2 14 1 (1/2)) (c + 1) = none
    rw [stepping_ESOL_fix]
    exact ih (c + 1)

/-- The whole construction runs out of any fuel at the pinch input. -/
theorem mc_pinch_none :
    ∀ fuel, mcCabeThiele fuel 2 2 (2/5) 1 (1/10) (1/5) (1/2) = none := by
  intro fuel
  unfold mcCabeThiele
  rw [adjust_q_id (1/5) (by norm_num) (by norm_num), mc_R_val_B, mc_ESOL_q_x_val_B]
  unfold rectPhase
  rw [stepping_ESOL_fix, rectLoop_pinch_none fuel 1]
  rfl

/-- Counterexample to C2 as stated: at the concrete pinch input
al = 2, reflux_factor = 2, xf = 2/5, xd = 1, xb = 1/10, q = 1/5, nm = 1/2
the rectifying loop's state is the fixpoint (1, 1, 1, 1) and the loop never
exits, for any amount of fuel; the source enforces no iteration cap of any
size and raises no NonConvergent error — it simply loops without bound. -/
theorem rect_loop_never_exits_at_pinch :
    ¬ mcTerminates 2 2 (2/5) 1 (1/10) (1/5) (1/2) := by
  rintro ⟨fuel, h⟩
  rw [mc_pinch_none fuel] at h
  simp at h

/-- The rectifying loop never decreases its stage counter. -/
theorem rectLoop_count_le (al R xd nm qx : ℝ) :
    ∀ (fuel : ℕ) (s : Step) (c : ℕ) (s2 : Step) (c2 : ℕ),
      rectLoop al R xd nm qx fuel s c = some (s2, c2) → c ≤ c2 := by
  intro fuel
  induction fuel with
  | zero =>
    intro s c s2 c2 h
    unfold rectLoop at h
    split_ifs at h
    simp only [Option.some.injEq, Prod.mk.injEq] at h
    exact h.2.le
  | succ n ih =>
    intro s c s2 c2 h
    unfold rectLoop at h
    split_ifs at h
    · exact le_trans (Nat.le_succ c) (ih _ (c + 1) _ _ h)
    · simp only [Option.some.injEq, Prod.mk.injEq] at h
      exact h.2.le

/-- The stripping loop never decreases its stage counter. -/
theorem ssolLoop_count_le (al qx qy xb nm : ℝ) :
    ∀ (fuel : ℕ) (s : Step) (c : ℕ) (s2 : Step) (c2 : ℕ),
      ssolLoop al qx qy xb nm fuel s c = some (s2, c2) → c ≤ c2 := by
  intro fuel
  induction fuel with
  | zero =>
    intro s c s2 c2 h
    unfold ssolLoop at h
    split_ifs at h
    simp only [Option.some.injEq, Prod.mk.injEq] at h
    exact h.2.le
  | succ n ih =>
    intro s c s2 c2 h
    unfold ssolLoop at h
    split_ifs at h
    · exact le_trans (Nat.le_succ c) (ih _ (c + 1) _ _ h)
    · simp only [Option.some.injEq, Prod.mk.injEq] at h
      exact h.2.le

/-- C7: any normally terminating run decomposes into a rectifying phase
whose exit counter (at least 1, the initial placement) is the reported
feed stage, followed by the stripping phase; the reported stage count is
the final step counter minus 1, and 1 ≤ feed_stage ≤ stages with stages a
positive integer. -/
theorem mcCabeThiele_stage_invariants (fuel : ℕ) (al rf xf xd xb q0 nm : ℝ)
    (res : MTResult) (h : mcCabeThiele fuel al rf xf xd xb q0 nm = some res) :
    ∃ s count s2 count2,
      rectPhase al (mc_R al (adjust_q q0) nm xf xd rf) xd nm
          (mc_ESOL_q_x al (adjust_q q0) nm xf xd rf) fuel = some (s, count) ∧
        ssolPhase al (mc_ESOL_q_x al (adjust_q q0) nm xf xd rf)
          (mc_ESOL_q_y al (adjust_q q0) nm xf xd rf) xb nm fuel s count =
            some (s2, count2) ∧
        res.feed_stage = count ∧ res.stages = count2 - 1 ∧
        res.xb_actual = s2.x2 ∧
        1 ≤ res.feed_stage ∧ res.feed_stage ≤ res.stages ∧ 1 ≤ res.stages := by
  unfold mcCabeThiele at h
  rcases hre : rectPhase al (mc_R al (adjust_q q0) nm xf xd rf) xd nm
      (mc_ESOL_q_x al (adjust_q q0) nm xf xd rf) fuel with _ | ⟨s, count⟩
  · rw [hre] at h
    simp at h
  · rw [hre] at h
    rw [Option.some_bind] at h
    dsimp only at h
    rcases hss : ssolPhase al (mc_ESOL_q_x al (adjust_q q0) nm xf xd rf)
        (mc_ESOL_q_y al (adjust_q q0) nm xf xd rf) xb nm fuel s count
        with _ | ⟨s2, count2⟩
    · rw [hss] at h
      simp at h
    · rw [hss] at h
      simp only [Option.map_some', Option.some.injEq] at h
      have hc1 : 1 ≤ count := by
        unfold rectPhase at hre
        exact rectLoop_count_le _ _ _ _ _ fuel _ 1 s count hre
      have hc2 : count + 1 ≤ count2 := by
        unfold ssolPhase at hss
        exact ssolLoop_count_le _ _ _ _ _ fuel _ (count + 1) s2 count2 hss
      subst h
      refine ⟨s, count, s2, count2, rfl, hss, rfl, rfl, rfl, hc1, ?_, ?_⟩
      · show count ≤ count2 - 1
        omega
      · show 1 ≤ count2 - 1
        omega

/-- Minimum reflux ratio of the terminating eta = 1 configuration. -/
theorem mc_R_min_val_A : mc_R_min 2 (3/5) 1 (2/5) (9/10) = 12/5 := by
  unfold mc_R_min mc_theta_min
  rw [mc_q_eqX_val_A, mc_q_eqy_val_A]
  norm_num

/-- Actual reflux ratio of that configuration at reflux factor 3/2. -/
theorem mc_R_val_A : mc_R 2 (3/5) 1 (2/5) (9/10) (3/2) = 18/5 := by
  unfold mc_R
  rw [mc_R_min_val_A]
  norm_num

/-- ESOL / q-line crossing of that configuration. -/
theorem mc_ESOL_q_x_val_A : mc_ESOL_q_x 2 (3/5) 1 (2/5) (9/10) (3/2) = 37/105 := by
  unfold mc_ESOL_q_x mc_theta
  rw [mc_R_val_A]
  norm_num

/-- The initial rectifying step of that configuration: the degenerate
inverse equilibrium gives x2 = 0 at once. -/
theorem stepping_ESOL_val_A :
    stepping_ESOL (9/10) (9/10) 2 (18/5) (9/10) 1 = ⟨9/10, 0, 9/10, 9/46⟩ := by
  unfold stepping_ESOL
  rw [eq2_val_nine_tenths]
  simp only [Step.mk.injEq]
  norm_num

/-- The rectifying phase of that configuration exits at once with the
feed stage 1. -/
theorem rectPhase_val_A :
    rectPhase 2 (18/5) (9/10) 1 (37/105) 1000 =
      some (⟨9/10, 0, 9/10, 9/46⟩, 1) := by
  unfold rectPhase
  rw [stepping_ESOL_val_A]
  exact rectLoop_exit _ _ _ _ _ 1000 _ 1 (by
    show ¬((0:ℝ) > 37/105)
    norm_num)

/-- The stripping phase of that configuration exits after its one
unconditional step, for any crossing ordinate qy. -/
theorem ssolPhase_val_A (qy : ℝ) :
    ssolPhase 2 (37/105) qy (1/10) 1 1000 ⟨9/10, 0, 9/10, 9/46⟩ 1 =
      some (stepping_SSOL (9/10) (9/10) 2 (37/105) qy (1/10) 1, 2) := by
  unfold ssolPhase mc_first_SSOL
  exact ssolLoop_exit _ _ _ _ _ 1000 _ 2 (by
    show ¬(eq2 (9/10) 2 1 > 1/10)
    rw [eq2_val_nine_tenths]
    norm_num)

/-- The whole run at al = 2, rf = 3/2, xf = 2/5, xd = 9/10, xb = 1/10,
q = 3/5, nm = 1 terminates with stages = 1, feed stage 1, R_min = 12/5,
R = 18/5 and xb_actual = 0. -/
theorem mcCabeThiele_val_A :
    mcCabeThiele 1000 2 (3/2) (2/5) (9/10) (1/10) (3/5) 1 =
      some ⟨1, 1, 12/5, 18/5, 0⟩ := by
  unfold mcCabeThiele
  rw [adjust_q_id (3/5) (by norm_num) (by norm_num), mc_R_val_A,
    mc_ESOL_q_x_val_A, mc_R_min_val_A, rectPhase_val_A, Option.some_bind]
  dsimp only
  rw [ssolPhase_val_A, Option.map_some']
  dsimp only
  rw [show (stepping_SSOL (9/10) (9/10) 2 (37/105)
      (mc_ESOL_q_y 2 (3/5) 1 (2/5) (9/10) (3/2)) (1/10) 1).x2 = 0
    from eq2_val_nine_tenths]

/-- Witness for C7: the run of mcCabeThiele_val_A terminates normally and
realises every invariant at feed_stage = stages = 1. -/
theorem mcCabeThiele_stage_invariants_witness :
    ∃ s count s2 count2,
      rectPhase 2 (mc_R 2 (adjust_q (3/5)) 1 (2/5) (9/10) (3/2)) (9/10) 1
          (mc_ESOL_q_x 2 (adjust_q (3/5)) 1 (2/5) (9/10) (3/2)) 1000 =
            some (s, count) ∧
        ssolPhase 2 (mc_ESOL_q_x 2 (adjust_q (3/5)) 1 (2/5) (9/10) (3/2))
          (mc_ESOL_q_y 2 (adjust_q (3/5)) 1 (2/5) (9/10) (3/2)) (1/10) 1 1000
            s count = some (s2, count2) ∧
        (1 : ℕ) = count ∧ (1 : ℕ) = count2 - 1 ∧ (0 : ℝ) = s2.x2 ∧
        (1 : ℕ) ≤ 1 ∧ (1 : ℕ) ≤ 1 ∧ (1 : ℕ) ≤ 1 :=
  mcCabeThiele_stage_invariants 1000 2 (3/2) (2/5) (9/10) (1/10) (3/5) 1
    ⟨1, 1, 12/5, 18/5, 0⟩ mcCabeThiele_val_A

/-- Any property holding of every rectifying step output holds of the
state the rectifying loop exits with, provided it holds on entry. -/
theorem rectLoop_preserves (al R xd nm qx : ℝ) (P : Step → Prop)
    (hP : ∀ x1 y1, P (stepping_ESOL x1 y1 al R xd nm)) :
    ∀ (fuel : ℕ) (s : Step) (c : ℕ) (s2 : Step) (c2 : ℕ), P s →
      rectLoop al R xd nm qx fuel s c = some (s2, c2) → P s2 := by
  intro fuel
  induction fuel with
  | zero =>
    intro s c s2 c2 hs h
    unfold rectLoop at h
    split_ifs at h
    simp only [Option.some.injEq, Prod.mk.injEq] at h
    exact h.1 ▸ hs
  | succ n ih =>
    intro s c s2 c2 hs h
    unfold rectLoop at h
    split_ifs at h
    · exact ih _ (c + 1) _ _ (hP s.x2 s.y2) h
    · simp only [Option.some.injEq, Prod.mk.injEq] at h
      exact h.1 ▸ hs

/-- C4 (amended): the first stripping step takes as its input the last
rectifying step's starting point (x1, y1), not its endpoint (x2, y2); since
the tuple returned by the rectifying phase always satisfies x2 = eq2 y1,
that first stripping step reproduces the endpoint's liquid composition x2
as its own horizontal move and then drops to the SSOL line, and exactly one
stripping step is taken unconditionally, advancing the stage counter from
count to count + 1 before the stripping loop starts. -/
theorem transition_uses_last_rect_input (al R xd nm qx qy xb : ℝ) (fuel : ℕ)
    (s : Step) (count : ℕ) (h : rectPhase al R xd nm qx fuel = some (s, count)) :
    eq2 s.y1 al nm = s.x2 ∧
      mc_first_SSOL s al qx qy xb nm =
        ⟨s.x1, s.x2, s.y1,
          (((xb - qy) / (xb - qx)) * s.x2) +
            (qy - (((xb - qy) / (xb - qx)) * qx))⟩ ∧
      ssolPhase al qx qy xb nm fuel s count =
        ssolLoop al qx qy xb nm fuel (mc_first_SSOL s al qx qy xb nm)
          (count + 1) := by
  have hinv : eq2 s.y1 al nm = s.x2 := by
    have := rectLoop_preserves al R xd nm qx
      (fun t => eq2 t.y1 al nm = t.x2)
      (fun x1 y1 => rfl) fuel (stepping_ESOL xd xd al R xd nm) 1 s count
      rfl h
    exact this
  refine ⟨hinv, ?_, rfl⟩
  unfold mc_first_SSOL stepping_SSOL
  rw [hinv]

/-- The inverse equilibrium at the top composition of the two-step run:
eq2 (7/12) = 1/2 at al = 2, nm = 1/2 (discriminant 289/144). -/
theorem eq2_val_seven_twelfths : eq2 (7/12) 2 (1/2) = 1/2 := by
  refine eq2_val (7/12) 2 (1/2) (17/12) (1/2) (by norm_num) ?_ ?_
  · unfold eq2_a eq2_b eq2_c; norm_num
  · unfold eq2_a eq2_b; norm_num

/-- The next inverse equilibrium of the two-step run: eq2 (18/35) = 3/7
at al = 2, nm = 1/2 (discriminant 9801/4900). -/
theorem eq2_val_eighteen_35ths : eq2 (18/35) 2 (1/2) = 3/7 := by
  refine eq2_val (18/35) 2 (1/2) (99/70) (3/7) (by norm_num) ?_ ?_
  · unfold eq2_a eq2_b eq2_c; norm_num
  · unfold eq2_a eq2_b; norm_num

/-- First rectifying step of the two-step run (R = 29/6, xd = 7/12). -/
theorem stepping_ESOL_val_C1 :
    stepping_ESOL (7/12) (7/12) 2 (29/6) (7/12) (1/2) =
      ⟨7/12, 1/2, 7/12, 18/35⟩ := by
  unfold stepping_ESOL
  rw [eq2_val_seven_twelfths]
  simp only [Step.mk.injEq]
  norm_num

/-- Second rectifying step of the two-step run. -/
theorem stepping_ESOL_val_C2 :
    stepping_ESOL (1/2) (18/35) 2 (29/6) (7/12) (1/2) =
      ⟨1/2, 3/7, 18/35, 223/490⟩ := by
  unfold stepping_ESOL
  rw [eq2_val_eighteen_35ths]
  simp only [Step.mk.injEq]
  norm_num

/-- One unrolling of the rectifying loop while its condition holds. -/
theorem rectLoop_step (al R xd nm qx : ℝ) (fuel : ℕ) (s : Step) (c : ℕ)
    (h : s.x2 > qx) :
    rectLoop al R xd nm qx (fuel + 1) s c =
      rectLoop al R xd nm qx fuel (stepping_ESOL s.x2 s.y2 al R xd nm)
        (c + 1) := by
  conv_lhs => unfold rectLoop
  rw [if_pos h]

/-- The rectifying phase of the two-step run exits after two steps, at the
feed stage 2, with the last step (1/2, 3/7, 18/35, 223/490). -/
theorem rectPhase_val_C :
    rectPhase 2 (29/6) (7/12) (1/2) (9/20) 1000 =
      some (⟨1/2, 3/7, 18/35, 223/490⟩, 2) := by
  unfold rectPhase
  rw [stepping_ESOL_val_C1]
  rw [show (1000:ℕ) = 999 + 1 from rfl, rectLoop_step 2 (29/6) (7/12) (1/2)
    (9/20) 999 _ 1 (by show (1/2:ℝ) > 9/20; norm_num)]
  show rectLoop 2 (29/6) (7/12) (1/2) (9/20) 999
    (stepping_ESOL (1/2) (18/35) 2 (29/6) (7/12) (1/2)) 2 = _
  rw [stepping_ESOL_val_C2]
  exact rectLoop_exit _ _ _ _ _ 999 _ 2 (by
    show ¬((3/7:ℝ) > 9/20)
    norm_num)

/-- Witness for C4 (amended) on the two-step run, at the transition state
(1/2, 3/7, 18/35, 223/490) with feed stage 2. -/
theorem transition_uses_last_rect_input_witness :
    eq2 (18/35) 2 (1/2) = 3/7 ∧
      mc_first_SSOL ⟨1/2, 3/7, 18/35, 223/490⟩ 2 (9/20) (331/700) (1/5) (1/2) =
        ⟨1/2, 3/7, 18/35,
          ((((1:ℝ)/5 - 331/700) / (1/5 - 9/20)) * (3/7)) +
            (331/700 - ((((1:ℝ)/5 - 331/700) / (1/5 - 9/20)) * (9/20)))⟩ ∧
      ssolPhase 2 (9/20) (331/700) (1/5) (1/2) 1000
          ⟨1/2, 3/7, 18/35, 223/490⟩ 2 =
        ssolLoop 2 (9/20) (331/700) (1/5) (1/2) 1000
          (mc_first_SSOL ⟨1/2, 3/7, 18/35, 223/490⟩ 2 (9/20) (331/700) (1/5)
            (1/2)) 3 :=
  transition_uses_last_rect_input 2 (29/6) (7/12) (1/2) (9/20) (331/700) (1/5)
    1000 ⟨1/2, 3/7, 18/35, 223/490⟩ 2 rectPhase_val_C

/-- Counterexample to C4 as stated: on the two-step run the rectifying
phase exits with last step (x1, x2, y1, y2) = (1/2, 3/7, 18/35, 223/490),
and the first stripping step the code performs — stepping_SSOL on the
starting point (x1, y1) = (1/2, 18/35) — differs from a stripping step on
the endpoint (x2, y2) = (3/7, 223/490) claimed by the spec (already their
returned x1 components 1/2 and 3/7 differ). -/
theorem transition_input_is_not_endpoint :
    rectPhase 2 (29/6) (7/12) (1/2) (9/20) 1000 =
        some (⟨1/2, 3/7, 18/35, 223/490⟩, 2) ∧
      mc_first_SSOL ⟨1/2, 3/7, 18/35, 223/490⟩ 2 (9/20) (331/700) (1/5) (1/2) ≠
        stepping_SSOL (3/7) (223/490) 2 (9/20) (331/700) (1/5) (1/2) := by
  refine ⟨rectPhase_val_C, ?_⟩
  intro h
  have h2 : (1/2 : ℝ) = 3/7 := congrArg Step.x1 h
  norm_num at h2

/-- The q-line / equilibrium intersection abscissa of the concrete
scenario al = 2, q = 1/2, nm = 1, xf = 1/2 is sqrt 2 - 1 (the discriminant
is 8, not an exact square). -/
theorem mc_q_eqX_val_D : mc_q_eqX 2 (1/2) 1 (1/2) = Real.sqrt 2 - 1 := by
  have h8 : Real.sqrt 8 = 2 * Real.sqrt 2 := by
    rw [show (8:ℝ) = 2^2 * 2 by norm_num,
      Real.sqrt_mul (by positivity) 2, Real.sqrt_sq (by norm_num : (0:ℝ) ≤ 2)]
  have hd : (mc_qb 2 (1/2) 1 (1/2)) ^ 2 -
      4 * mc_qa 2 (1/2) 1 * mc_qc (1/2) (1/2) = 8 := by
    unfold mc_qa mc_qb mc_qc
    norm_num
  unfold mc_q_eqX
  rw [if_neg (by norm_num : ¬((1/2:ℝ) > 1)), hd, h8]
  unfold mc_qa mc_qb
  norm_num
  ring

/-- The matching ordinate: 2 - sqrt 2. -/
theorem mc_q_eqy_val_D : mc_q_eqy 2 (1/2) 1 (1/2) = 2 - Real.sqrt 2 := by
  have hsq : Real.sqrt 2 ^ 2 = 2 := Real.sq_sqrt (by norm_num)
  have hlb : (11:ℝ)/10 < Real.sqrt 2 := by
    nlinarith [Real.sqrt_nonneg 2]
  have hne : Real.sqrt 2 ≠ 0 := by positivity
  unfold mc_q_eqy
  rw [mc_q_eqX_val_D]
  unfold eq eq_og
  have hD : 1 + (2 - 1) * (Real.sqrt 2 - 1) = Real.sqrt 2 := by ring
  rw [hD]
  field_simp
  linear_combination hsq

/-- In the concrete scenario the minimum-reflux intercept is strictly
between 0 and xd = 9/10, hence R and theta are positive and the ESOL /
q-line crossing abscissa is positive. -/
theorem mc_ESOL_q_x_pos_D : 0 < mc_ESOL_q_x 2 (1/2) 1 (1/2) (9/10) (3/2) := by
  have hsq : Real.sqrt 2 ^ 2 = 2 := Real.sq_sqrt (by norm_num)
  have hlb : (11:ℝ)/10 < Real.sqrt 2 := by nlinarith [Real.sqrt_nonneg 2]
  have hub : Real.sqrt 2 < (3:ℝ)/2 := by nlinarith [Real.sqrt_nonneg 2]
  have hA : (0:ℝ) < 9/10 - (Real.sqrt 2 - 1) := by linarith
  have hTpos : 0 < mc_theta_min 2 (1/2) 1 (1/2) (9/10) := by
    unfold mc_theta_min
    rw [mc_q_eqX_val_D, mc_q_eqy_val_D]
    have hr : (9/10 - (2 - Real.sqrt 2)) / (9/10 - (Real.sqrt 2 - 1)) < 1 := by
      rw [div_lt_one hA]
      linarith
    nlinarith [hr]
  have hTlt : mc_theta_min 2 (1/2) 1 (1/2) (9/10) < 9/10 := by
    unfold mc_theta_min
    rw [mc_q_eqX_val_D, mc_q_eqy_val_D]
    have hr : 0 < (9/10 - (2 - Real.sqrt 2)) / (9/10 - (Real.sqrt 2 - 1)) :=
      div_pos (by linarith) hA
    nlinarith [hr]
  have hRmin : 0 < mc_R_min 2 (1/2) 1 (1/2) (9/10) := by
    unfold mc_R_min
    have h1 : 1 < (9/10) / mc_theta_min 2 (1/2) 1 (1/2) (9/10) :=
      (one_lt_div hTpos).mpr hTlt
    linarith
  have hR : 0 < mc_R 2 (1/2) 1 (1/2) (9/10) (3/2) := by
    unfold mc_R
    exact mul_pos (by norm_num) hRmin
  have hθpos : 0 < mc_theta 2 (1/2) 1 (1/2) (9/10) (3/2) := by
    unfold mc_theta
    exact div_pos (by norm_num) (by linarith)
  have hθlt : mc_theta 2 (1/2) 1 (1/2) (9/10) (3/2) < 9/10 := by
    unfold mc_theta
    rw [div_lt_iff₀ (by linarith : (0:ℝ) < mc_R 2 (1/2) 1 (1/2) (9/10) (3/2) + 1)]
    nlinarith [hR]
  unfold mc_ESOL_q_x
  have hnum : mc_theta 2 (1/2) 1 (1/2) (9/10) (3/2) - (1/2)/(1 - (1/2)) < 0 := by
    norm_num
    linarith
  have hrs : ((9:ℝ)/10 - mc_theta 2 (1/2) 1 (1/2) (9/10) (3/2)) / (9/10) =
      1 - (10/9) * mc_theta 2 (1/2) 1 (1/2) (9/10) (3/2) := by ring
  have hden : ((1:ℝ)/2)/((1/2) - 1) -
      ((9/10 - mc_theta 2 (1/2) 1 (1/2) (9/10) (3/2)) / (9/10)) < 0 := by
    rw [hrs]
    norm_num
    linarith
  exact div_pos_of_neg_of_neg hnum hden

/-- C5 evaluation: the concrete scenario al = 2, reflux_factor = 3/2,
xf = 1/2, xd = 9/10, xb = 1/10, q = 1/2, nm = 1 runs straight into the
degenerate nm = 1 division by zero of eq2 (which returns the junk value 0
here, NaN in the numpy source), so both loops exit immediately: the run
reports stages = 1, feed_stage = 1 and xb_actual = 0 — not a genuine
staircase, with feed_stage not strictly below stages and xb_actual 0.1
away from the target 0.1 bottoms composition. -/
theorem concrete_scenario_degenerates :
    ((mcCabeThiele 1000 2 (3/2) (1/2) (9/10) (1/10) (1/2) 1).map
        fun r => (r.stages, r.feed_stage, r.xb_actual)) =
      some (1, 1, (0:ℝ)) ∧
      ¬((1:ℕ) < 1) ∧ ¬(|(0:ℝ) - 1/10| ≤ 1/50) := by
  have hrun : mcCabeThiele 1000 2 (3/2) (1/2) (9/10) (1/10) (1/2) 1 =
      some ⟨1, 1, mc_R_min 2 (1/2) 1 (1/2) (9/10),
        mc_R 2 (1/2) 1 (1/2) (9/10) (3/2), 0⟩ := by
    unfold mcCabeThiele
    rw [adjust_q_id (1/2) (by norm_num) (by norm_num)]
    unfold rectPhase
    rw [rectLoop_exit _ _ _ _ _ 1000 _ 1 (by
      show ¬(eq2 (9/10) 2 1 > mc_ESOL_q_x 2 (1/2) 1 (1/2) (9/10) (3/2))
      rw [eq2_val_nine_tenths]
      exact not_lt.mpr mc_ESOL_q_x_pos_D.le)]
    rw [Option.some_bind]
    dsimp only
    unfold ssolPhase
    rw [show mc_first_SSOL
        (stepping_ESOL (9/10) (9/10) 2 (mc_R 2 (1/2) 1 (1/2) (9/10) (3/2))
          (9/10) 1) 2 (mc_ESOL_q_x 2 (1/2) 1 (1/2) (9/10) (3/2))
          (mc_ESOL_q_y 2 (1/2) 1 (1/2) (9/10) (3/2)) (1/10) 1 =
        stepping_SSOL (9/10) (9/10) 2 (mc_ESOL_q_x 2 (1/2) 1 (1/2) (9/10) (3/2))
          (mc_ESOL_q_y 2 (1/2) 1 (1/2) (9/10) (3/2)) (1/10) 1 from rfl]
    rw [ssolLoop_exit _ _ _ _ _ 1000 _ 2 (by
      show ¬(eq2 (9/10) 2 1 > 1/10)
      rw [eq2_val_nine_tenths]
      norm_num)]
    rw [Option.map_some']
    dsimp only
    rw [show (stepping_SSOL (9/10) (9/10) 2
        (mc_ESOL_q_x 2 (1/2) 1 (1/2) (9/10) (3/2))
        (mc_ESOL_q_y 2 (1/2) 1 (1/2) (9/10) (3/2)) (1/10) 1).x2 = (0:ℝ)
      from eq2_val_nine_tenths]
  rw [hrun]
  refine ⟨rfl, by norm_num, ?_⟩
  rw [not_le, zero_sub, abs_neg, abs_of_nonneg (by norm_num : (0:ℝ) ≤ 1/10)]
  norm_num

end
